import Mathlib

/-!
Shallow embedding of `src/p64_counter.c` (progress64 scalable counter domain)
with sequential (single-interleaving) semantics.

Modelling conventions:
* `uint64_t` / `uint32_t` cells are `Nat` values; every arithmetic store
  applies the machine reduction `% 2^64` (resp. `% 2^32`) exactly where the
  C expression is evaluated at that width.
* The free-bitmap word array `uint64_t free[]` is packed into one `Nat`:
  word `j` of the array is `(free >>> (64*j)) % 2^64`, so bit `b` of word
  `j` is bit `64*j + b` of the packed value.
* The per-thread table is a total function `Nat → Option (Nat → Nat)`;
  `none` is a NULL slot, `some stash` a published private stash.
* Atomic operations (loads, stores, CAS, fetch-add/or/sub) are executed
  sequentially, so a CAS always succeeds on its first attempt and the
  retry loops of the source run their bodies exactly once per word.
* External collaborators that are not part of the source file are made
  explicit parameters: `p64_malloc` success is a `Bool` argument, the
  thread-index allocator's grant is a `Nat` argument, and the reclamation
  `retire` call (which the source retries until accepted, and which only
  delays the actual `free`) is modelled by simply dropping the stash.
-/

/-- Modelled from the spec: `P64_COUNTER_INVALID` is declared in the header
`p64_counter.h`, which is not under `src/`.  The spec states that counter
identifier 0 "is also the designated 'invalid' sentinel value returned on
allocation failure". -/
def P64_COUNTER_INVALID : Nat := 0

/-- Modelled from the spec: `P64_COUNTER_F_HP` is declared in the missing
header `p64_counter.h`; it is the one recognised creation flag (the
hazard-pointer strategy selector), a single flag bit. -/
def P64_COUNTER_F_HP : Nat := 1

/-- Modelled from the spec: `MAXTHREADS` comes from `build_config.h`, which
is not under `src/`; the spec only requires "a fixed maximum thread
count". -/
def MAXTHREADS : Nat := 64

/-- Pointwise update of a table; models a store into an array cell. -/
def upd {α : Type} (f : Nat → α) (i : Nat) (v : α) : Nat → α :=
  fun j => if j = i then v else f j

/-- Word `n` with bit `b` cleared: `n & ~(1 << b)` in the source.  `Nat`
has no bitwise complement, so the and-not is expressed as an xor with the
mask when the bit is set (the two agree bit for bit; see
`testBit_clearBit`); this form also reduces inside `decide`/`rfl`. -/
def clearBit (n b : Nat) : Nat := if n.testBit b then n ^^^ (1 <<< b) else n

/-- Word `n` with bit `b` set: `n | (1 << b)` in the source. -/
def setBit (n b : Nat) : Nat := n ||| (1 <<< b)

/-- Fuel-based count-trailing-zeros; `ctzAux fuel w` computes the index of
the lowest set bit of `w` provided `w ≤ fuel`.  The fuel only makes the
recursion structural so that terms reduce by `decide`/`rfl`. -/
def ctzAux : Nat → Nat → Nat
  | 0, _ => 0
  | fuel + 1, w => if w % 2 = 1 ∨ w = 0 then 0 else ctzAux fuel (w / 2) + 1

/-- Count of trailing zeros of `w` (`__builtin_ctzl(w)`); the source only
applies it to nonzero words. -/
def ctz (w : Nat) : Nat := ctzAux w w

/-- `struct p64_cntdomain`.  `BITSPERWORD = 64`; see the packing convention
for `free` in the file header. -/
structure p64_cntdomain where
  ncounters : Nat
  use_hp : Bool
  shared : Nat → Nat
  perthread : Nat → Option (Nat → Nat)
  free : Nat

/-- The bitmap-initialisation loop of `p64_cntdomain_alloc`:
`for (b = 0; b < ncounters;)` either writes a whole word of ones
(`free[b/64] = ~0`, entered only with `b` a multiple of 64 and that word
still zero, hence an or on the packed view) or sets the single bit `b`.
`fuel` starts at `ncounters`, which bounds the number of iterations. -/
def markFreeAux (ncounters : Nat) : Nat → Nat → Nat → Nat
  | 0, _, acc => acc
  | fuel + 1, b, acc =>
    if b < ncounters then
      if b + 64 ≤ ncounters then
        markFreeAux ncounters fuel (b + 64)
          (acc ||| ((2 ^ 64 - 1) <<< (64 * (b / 64))))
      else
        markFreeAux ncounters fuel (b + 1) (acc ||| (1 <<< b))
    else acc

/-- `p64_cntdomain_alloc(ncounters, flags)`.  `malloc_ok` models the result
of the `p64_malloc` collaborator; `none` is a NULL return (after an error
report for bad flags, silently for allocation failure).  Note the 32-bit
increment `ncounters++` and the reservation of counter 0. -/
def p64_cntdomain_alloc (ncounters flags : Nat) (malloc_ok : Bool) :
    Option p64_cntdomain :=
  if flags &&& (2 ^ 32 - 1 - P64_COUNTER_F_HP) ≠ 0 then
    none
  else
    let nc := (ncounters + 1) % 2 ^ 32
    if malloc_ok then
      some { ncounters := nc
             use_hp := flags &&& P64_COUNTER_F_HP != 0
             shared := fun _ => 0
             perthread := fun _ => none
             free := clearBit (markFreeAux nc nc 0 0) 0 }
    else none

/-- The thread-local registration state `pth`: `int32_t tidx` (initially
`-1`) and the `uint32_t` nesting refcount `count`. -/
structure PthState where
  tidx : Int
  count : Nat

/-- The initial value of the thread-local state: `{ -1, 0 }`. -/
def pthInit : PthState := { tidx := -1, count := 0 }

/-- Outcome of `p64_cntdomain_register`: `doubleReg` is the defensive
"slot already occupied" report path, `stashAllocFailed` the
"failed to allocate private stash" report path. -/
inductive RegResult where
  | doubleReg
  | stashAllocFailed
  | ok

/-- `p64_cntdomain_register`.  `idx_granted` models the value returned by
`p64_idx_alloc()` (only consulted on the 0 → 1 transition of the
refcount); `malloc_ok` models the private-stash `p64_malloc`.  Note that
`pth.count++` happens before every early return. -/
def p64_cntdomain_register (cntd : p64_cntdomain) (pth : PthState)
    (idx_granted : Nat) (malloc_ok : Bool) :
    p64_cntdomain × PthState × RegResult :=
  let c0 := pth.count
  let pth1 : PthState :=
    { tidx := if c0 = 0 then (idx_granted : Int) else pth.tidx
      count := (c0 + 1) % 2 ^ 32 }
  if (cntd.perthread pth1.tidx.toNat).isSome then
    (cntd, pth1, RegResult.doubleReg)
  else if malloc_ok then
    ({ cntd with
        perthread := upd cntd.perthread pth1.tidx.toNat (some fun _ => 0) },
      pth1, RegResult.ok)
  else
    (cntd, pth1, RegResult.stashAllocFailed)

/-- Outcome of `p64_cntdomain_unregister`. -/
inductive UnregResult where
  | notRegistered
  | ok

/-- The merge loop of `p64_cntdomain_unregister`:
`for (i = 0; i < ncounters; i++) { uint32_t val = counters[i]; if (val != 0)
{ counters[i] = 0; shared[i] += val; } }`.  The read into the `uint32_t`
local truncates the 64-bit stash entry; the fetch-add then zero-extends
it back to 64 bits.  Returns the final (stash, shared) pair. -/
def mergeLoopAux (ncounters : Nat) :
    Nat → Nat → (Nat → Nat) → (Nat → Nat) → (Nat → Nat) × (Nat → Nat)
  | 0, _, counters, shared => (counters, shared)
  | fuel + 1, i, counters, shared =>
    if i < ncounters then
      let val := counters i % 2 ^ 32
      if val ≠ 0 then
        mergeLoopAux ncounters fuel (i + 1) (upd counters i 0)
          (upd shared i ((shared i + val) % 2 ^ 64))
      else
        mergeLoopAux ncounters fuel (i + 1) counters shared
    else (counters, shared)

/-- `p64_cntdomain_unregister`.  On the merge path the stash is merged,
unpublished and retired (retirement hands the array to the reclamation
collaborator, so it simply disappears from the state), then the refcount
is decremented and on the 1 → 0 transition the thread index is released
(`p64_idx_free`) and reset to `-1`. -/
def p64_cntdomain_unregister (cntd : p64_cntdomain) (pth : PthState) :
    p64_cntdomain × PthState × UnregResult :=
  if pth.count = 0 then
    (cntd, pth, UnregResult.notRegistered)
  else
    match cntd.perthread pth.tidx.toNat with
    | none => (cntd, pth, UnregResult.notRegistered)
    | some counters =>
      let ms := mergeLoopAux cntd.ncounters cntd.ncounters 0 counters cntd.shared
      let cntd' := { cntd with
        shared := ms.2
        perthread := upd cntd.perthread pth.tidx.toNat none }
      let count' := pth.count - 1
      let pth' : PthState :=
        if count' = 0 then { tidx := -1, count := 0 }
        else { pth with count := count' }
      (cntd', pth', UnregResult.ok)

/-- The word scan of `p64_counter_alloc`: for `i` from the current index
while `i < nwords`, load word `i`; if it has a free bit, claim the lowest
one by CAS (which, sequentially, succeeds at once) and return
`i*64 + b`.  `fuel` starts at `nwords`. -/
def allocScanAux (free : Nat) : Nat → Nat → Option Nat
  | 0, _ => none
  | fuel + 1, i =>
    let w := (free >>> (64 * i)) % 2 ^ 64
    if w ≠ 0 then some (64 * i + ctz w)
    else allocScanAux free fuel (i + 1)

/-- `p64_counter_alloc`.  On success the claimed bit is cleared (the CAS
writes `w & ~(1 << b)` into word `i`, i.e. clears bit `64*i + b` of the
packed bitmap), the identifier's shared entry is zeroed and the
identifier returned; otherwise `P64_COUNTER_INVALID` is returned. -/
def p64_counter_alloc (cntd : p64_cntdomain) : p64_cntdomain × Nat :=
  let nwords := (cntd.ncounters + 64 - 1) / 64
  match allocScanAux cntd.free nwords 0 with
  | some cntid =>
    ({ cntd with
        free := clearBit cntd.free cntid
        shared := upd cntd.shared cntid 0 }, cntid)
  | none => (cntd, P64_COUNTER_INVALID)

/-- Outcome of `p64_counter_free`. -/
inductive FreeResult where
  | invalidCounter
  | alreadyFree
  | ok

/-- `p64_counter_free`.  Validates the identifier, guards against double
free by testing `free[cntid/64] & (1 << (cntid%64))`, then sets the bit
with a fetch-or. -/
def p64_counter_free (cntd : p64_cntdomain) (cntid : Nat) :
    p64_cntdomain × FreeResult :=
  if cntid = P64_COUNTER_INVALID ∨ cntid ≥ cntd.ncounters then
    (cntd, FreeResult.invalidCounter)
  else if ((cntd.free >>> (64 * (cntid / 64))) % 2 ^ 64) &&& (1 <<< (cntid % 64)) ≠ 0 then
    (cntd, FreeResult.alreadyFree)
  else
    ({ cntd with free := cntd.free ||| (1 <<< (64 * (cntid / 64) + cntid % 64)) },
      FreeResult.ok)

/-- Outcome of `p64_counter_add`.  `nullDeref` marks the execution that
reaches `counters[cntid]` with `cntd->perthread[pth.tidx] == NULL`:
undefined behaviour in the C source, surfaced as a distinguished value in
the embedding. -/
inductive AddResult where
  | notRegistered
  | invalidCounter
  | nullDeref
  | ok (cntd : p64_cntdomain)

/-- `p64_counter_add`.  Checks the thread-local refcount, validates the
identifier, then loads the thread's stash pointer and stores
`old + val` (64-bit wrap-around) into its `cntid` entry. -/
def p64_counter_add (cntd : p64_cntdomain) (pth : PthState)
    (cntid val : Nat) : AddResult :=
  if pth.count = 0 then
    AddResult.notRegistered
  else if cntid = P64_COUNTER_INVALID ∨ cntid ≥ cntd.ncounters then
    AddResult.invalidCounter
  else
    match cntd.perthread pth.tidx.toNat with
    | none => AddResult.nullDeref
    | some counters =>
      AddResult.ok { cntd with
        perthread := upd cntd.perthread pth.tidx.toNat
          (some (upd counters cntid ((counters cntid + val) % 2 ^ 64))) }

/-- The per-thread summation loop of `p64_counter_read`: for each slot of
the per-thread table, skip NULL pointers and add the published stash's
`cntid` entry into the 64-bit running sum.  (In hazard-pointer mode the
slot is loaded through `p64_hazptr_acquire`, which returns the same
pointer; both strategies therefore read the same value here.) -/
def sumThreads (pt : Nat → Option (Nat → Nat)) (cntid : Nat) :
    List Nat → Nat → Nat
  | [], acc => acc
  | t :: ts, acc =>
    match pt t with
    | some counters => sumThreads pt cntid ts ((acc + counters cntid) % 2 ^ 64)
    | none => sumThreads pt cntid ts acc

/-- One traversal of `p64_counter_read`'s consistency loop: read `sh0`,
sum the published stashes on top of it, re-read the shared entry as
`sh1`.  Returns `(sh0, sum, sh1)`. -/
def readTraverse (cntd : p64_cntdomain) (cntid : Nat) : Nat × Nat × Nat :=
  let sh0 := cntd.shared cntid
  let sum := sumThreads cntd.perthread cntid (List.range MAXTHREADS) sh0
  let sh1 := cntd.shared cntid
  (sh0, sum, sh1)

/-- The `do … while (sh0 != sh1)` loop of `p64_counter_read`, made
structural with fuel: each iteration is one `readTraverse`; the loop
exits with the accumulated sum when `sh0 = sh1`. -/
def readLoopAux (cntd : p64_cntdomain) (cntid : Nat) : Nat → Option Nat
  | 0 => none
  | fuel + 1 =>
    let t := readTraverse cntd cntid
    if t.1 = t.2.2 then some t.2.1 else readLoopAux cntd cntid fuel

/-- `p64_counter_read`.  Invalid identifiers report and return 0.  In the
sequential embedding the domain state cannot change between the two reads
of the shared entry, so the consistency loop exits after its first
traversal (this is claim C9); `p64_counter_read` is therefore the sum
computed by one traversal. -/
def p64_counter_read (cntd : p64_cntdomain) (cntid : Nat) : Nat :=
  if cntid = P64_COUNTER_INVALID ∨ cntid ≥ cntd.ncounters then 0
  else (readTraverse cntd cntid).2.1

/-- 64-bit wrap-around subtraction `x - y`, as performed by
`__atomic_fetch_sub` on a `uint64_t`. -/
def sub64 (x y : Nat) : Nat := (x % 2 ^ 64 + (2 ^ 64 - y % 2 ^ 64)) % 2 ^ 64

/-- `p64_counter_reset`: validates the identifier, reads the current total
and subtracts it from the shared entry. -/
def p64_counter_reset (cntd : p64_cntdomain) (cntid : Nat) : p64_cntdomain :=
  if cntid = P64_COUNTER_INVALID ∨ cntid ≥ cntd.ncounters then cntd
  else
    let cur := p64_counter_read cntd cntid
    { cntd with shared := upd cntd.shared cntid (sub64 (cntd.shared cntid) cur) }

/-- `n` consecutive `p64_counter_alloc` calls; returns the list of
returned identifiers in call order together with the final state. -/
def allocSeq (cntd : p64_cntdomain) : Nat → List Nat × p64_cntdomain
  | 0 => ([], cntd)
  | n + 1 =>
    let r := p64_counter_alloc cntd
    let rest := allocSeq r.1 n
    (r.2 :: rest.1, rest.2)

/-- A slot-allocator call: either `p64_counter_alloc` or
`p64_counter_free` with a given identifier. -/
inductive CntOp where
  | alloc
  | free (cntid : Nat)

/-- State reached by one slot-allocator call (the returned value, if any,
is dropped). -/
def applyOp (cntd : p64_cntdomain) : CntOp → p64_cntdomain
  | CntOp.alloc => (p64_counter_alloc cntd).1
  | CntOp.free cntid => (p64_counter_free cntd cntid).1

/-- State reached by a sequence of slot-allocator calls. -/
def runOps (cntd : p64_cntdomain) : List CntOp → p64_cntdomain
  | [] => cntd
  | op :: ops => runOps (applyOp cntd op) ops

/-- Domain states reachable from creation by any sequence of
`p64_counter_alloc` / `p64_counter_free` calls. -/
inductive Reachable : p64_cntdomain → Prop where
  | init : ∀ ncounters flags d,
      p64_cntdomain_alloc ncounters flags true = some d → Reachable d
  | alloc : ∀ d, Reachable d → Reachable (p64_counter_alloc d).1
  | free : ∀ d cntid, Reachable d → Reachable (p64_counter_free d cntid).1

/-- `c` is the index of the lowest set bit of `n`. -/
def IsLowBit (n c : Nat) : Prop :=
  n.testBit c = true ∧ ∀ j, j < c → n.testBit j = false

/-- The bitmap part of the data-model invariant: bit 0 (the reserved
identifier) is never free, and no bit at or beyond the identifier count
is ever set. -/
def InvBitmap (d : p64_cntdomain) : Prop :=
  d.free.testBit 0 = false ∧ ∀ b, d.ncounters ≤ b → d.free.testBit b = false

/-- The domain created by `p64_cntdomain_alloc(4, 0)`: 5 identifiers
(counter 0 reserved), free bitmap `0b11110`. -/
def dom4 : p64_cntdomain :=
  { ncounters := 5, use_hp := false, shared := fun _ => 0
    perthread := fun _ => none, free := 30 }

/-- State of `AddResult`, with a fallback for the error outcomes. -/
def addState (fallback : p64_cntdomain) : AddResult → p64_cntdomain
  | AddResult.ok d => d
  | _ => fallback

/-- C4 scenario, step 1: allocate a counter on the fresh domain. -/
def c4_a1 : p64_cntdomain × Nat := p64_counter_alloc dom4

/-- C4 scenario: thread A registers (granted thread index 0). -/
def c4_r1 : p64_cntdomain × PthState × RegResult :=
  p64_cntdomain_register c4_a1.1 pthInit 0 true

/-- C4 scenario: thread A adds 5 to counter 1. -/
def c4_d3 : p64_cntdomain :=
  addState c4_r1.1 (p64_counter_add c4_r1.1 c4_r1.2.1 1 5)

/-- C4 scenario: thread B registers (granted thread index 1). -/
def c4_r2 : p64_cntdomain × PthState × RegResult :=
  p64_cntdomain_register c4_d3 pthInit 1 true

/-- C4 scenario: thread B adds 7 to counter 1. -/
def c4_d5 : p64_cntdomain :=
  addState c4_r2.1 (p64_counter_add c4_r2.1 c4_r2.2.1 1 7)

/-- C4 scenario: thread A unregisters (merging its 5 into the shared
accumulator). -/
def c4_d6 : p64_cntdomain := (p64_cntdomain_unregister c4_d5 c4_r1.2.1).1

/-- C4 scenario: counter 1 is reset. -/
def c4_d7 : p64_cntdomain := p64_counter_reset c4_d6 1

/-- C4 scenario: counter 1 is freed. -/
def c4_d8 : p64_cntdomain := (p64_counter_free c4_d7 1).1

/-- C4 scenario: counter 1 is allocated again. -/
def c4_a2 : p64_cntdomain × Nat := p64_counter_alloc c4_d8

/-- C1 input: a registered thread (index 0) whose private stash holds
`2^32` for counter 1; the shared accumulator is zero. -/
def c1_dom : p64_cntdomain :=
  { ncounters := 2, use_hp := false, shared := fun _ => 0
    perthread := upd (fun _ => none) 0 (some (upd (fun _ => 0) 1 (2 ^ 32)))
    free := 0 }

/-- C1 input, second variant: the stash holds `2^32 + 5` for counter 1. -/
def c1_domB : p64_cntdomain :=
  { ncounters := 2, use_hp := false, shared := fun _ => 0
    perthread := upd (fun _ => none) 0 (some (upd (fun _ => 0) 1 (2 ^ 32 + 5)))
    free := 0 }

/-- C2 trace: first (outermost) register of the thread, index 0. -/
def c2_r1 : p64_cntdomain × PthState × RegResult :=
  p64_cntdomain_register dom4 pthInit 0 true

/-- C2 trace: the registered thread adds 5 to counter 1 so that the merge
performed by the inner unregister is observable. -/
def c2_d2 : p64_cntdomain :=
  addState c2_r1.1 (p64_counter_add c2_r1.1 c2_r1.2.1 1 5)

/-- C2 trace: nested (inner) register of the same thread. -/
def c2_r2 : p64_cntdomain × PthState × RegResult :=
  p64_cntdomain_register c2_d2 c2_r1.2.1 7 true

/-- C2 trace: the inner unregister (nesting depth 2 → 1). -/
def c2_u1 : p64_cntdomain × PthState × UnregResult :=
  p64_cntdomain_unregister c2_r2.1 c2_r2.2.1

/-- C2 trace: the outer unregister (nesting depth 1 → 0 expected). -/
def c2_u2 : p64_cntdomain × PthState × UnregResult :=
  p64_cntdomain_unregister c2_u1.1 c2_u1.2.1

/-- C3 input: a first (non-nested) register whose private-stash allocation
fails. -/
def c3_r : p64_cntdomain × PthState × RegResult :=
  p64_cntdomain_register dom4 pthInit 0 false

/-- C7 witness domain: two counters, shared[1] = 5, one registered thread
whose stash holds 7 for counter 1. -/
def c7w : p64_cntdomain :=
  { ncounters := 2, use_hp := false
    shared := fun j => if j = 1 then 5 else 0
    perthread := upd (fun _ => none) 0 (some fun j => if j = 1 then 7 else 0)
    free := 0 }

/-- C5 witness domain: the domain created with capacity 2 (3 identifiers,
free bitmap `0b110`). -/
def c5w : p64_cntdomain :=
  { ncounters := 3, use_hp := false, shared := fun _ => 0
    perthread := fun _ => none, free := 6 }

/-- The domain created with capacity `2^32 - 1`: the 32-bit increment
`ncounters++` wraps the identifier count to 0 and the free bitmap is
empty. -/
def d10 : p64_cntdomain :=
  { ncounters := 0, use_hp := false, shared := fun _ => 0
    perthread := fun _ => none, free := 0 }

/-- C6 witness domain: the domain created with capacity 1 (2 identifiers,
free bitmap `0b10`). -/
def c6w : p64_cntdomain :=
  { ncounters := 2, use_hp := false, shared := fun _ => 0
    perthread := fun _ => none, free := 2 }

lemma allocScanAux_zero : ∀ fuel i, allocScanAux 0 fuel i = none := by
  intro fuel
  induction fuel with
  | zero => intro i; rfl
  | succ n ih => intro i; simp [allocScanAux, ih]

lemma alloc_of_free_zero (d : p64_cntdomain) (h : d.free = 0) :
    p64_counter_alloc d = (d, P64_COUNTER_INVALID) := by
  simp only [p64_counter_alloc, h, allocScanAux_zero]

lemma allocSeq_free_zero (d : p64_cntdomain) (h : d.free = 0) :
    ∀ n, allocSeq d n = (List.replicate n P64_COUNTER_INVALID, d) := by
  intro n
  induction n with
  | zero => rfl
  | succ n ih => simp [allocSeq, alloc_of_free_zero d h, ih, List.replicate_succ]

/-- C1: the merge step of `p64_cntdomain_unregister` reads the 64-bit stash
entry into a `uint32_t`, so a stash value of `2^32` for counter 1 is lost
entirely (the shared entry stays 0 and the stash entry is not even
zeroed), and a stash value of `2^32 + 5` adds only 5 to the shared entry;
the claim says the shared entry increases by the full 64-bit value. -/
theorem c1_unregister_merge_truncates :
    (p64_cntdomain_unregister c1_dom ⟨0, 1⟩).1.shared 1 = 0 ∧
    (mergeLoopAux 2 2 0 (upd (fun _ => 0) 1 (2 ^ 32)) (fun _ => 0)).1 1 = 2 ^ 32 ∧
    (p64_cntdomain_unregister c1_domB ⟨0, 1⟩).1.shared 1 = 5 := by
  refine ⟨by decide, by decide, by decide⟩

/-- C2: with nesting depth 2, the inner (first) `p64_cntdomain_unregister`
reports success, merges the thread's 5 into the shared accumulator,
unpublishes and retires the stash, and leaves the refcount at 1; a
subsequent `p64_counter_add` at depth 1 then dereferences the NULL slot,
and the outer unregister reports "thread not registered", never reaching
the refcount decrement, so the thread index is never released. -/
theorem c2_inner_unregister_retires_stash :
    c2_r2.2.2 = RegResult.doubleReg ∧
    c2_r2.2.1.count = 2 ∧
    c2_u1.2.2 = UnregResult.ok ∧
    c2_u1.1.perthread 0 = none ∧
    c2_u1.1.shared 1 = 5 ∧
    c2_u1.2.1.count = 1 ∧
    p64_counter_add c2_u1.1 c2_u1.2.1 1 3 = AddResult.nullDeref ∧
    c2_u2.2.2 = UnregResult.notRegistered ∧
    c2_u2.2.1.count = 1 ∧
    c2_u2.2.1.tidx = 0 := by
  exact ⟨rfl, by decide, rfl, rfl, by decide, by decide, rfl, rfl, by decide, by decide⟩

/-- C3: when the private-stash allocation fails during a thread's first
register, the call reports the failure but has already advanced the
thread-local refcount from 0 to 1, and a subsequent `p64_counter_add` by
that thread does not report "thread not registered": it reaches the NULL
per-thread slot and dereferences it. -/
theorem c3_failed_register_advances_refcount :
    pthInit.count = 0 ∧
    c3_r.2.2 = RegResult.stashAllocFailed ∧
    c3_r.2.1.count = 1 ∧
    p64_counter_add c3_r.1 c3_r.2.1 1 5 = AddResult.nullDeref := by
  exact ⟨rfl, rfl, by decide, rfl⟩

/-- C8: two reachable states violate the claimed guard: after a register
whose stash allocation failed, and after an inner nested unregister, the
refcount is nonzero and the identifier valid yet the per-thread slot is
NULL, and `p64_counter_add` reaches the NULL stash dereference. -/
theorem c8_add_null_stash :
    c3_r.2.1.count ≠ 0 ∧
    c3_r.1.perthread 0 = none ∧
    p64_counter_add c3_r.1 c3_r.2.1 1 2 = AddResult.nullDeref ∧
    c2_u1.2.1.count ≠ 0 ∧
    c2_u1.1.perthread 0 = none ∧
    p64_counter_add c2_u1.1 c2_u1.2.1 2 1 = AddResult.nullDeref := by
  exact ⟨by decide, rfl, rfl, by decide, rfl, rfl⟩

/-- C4 counterexample: in the §8 scenario the second `allocateCounter`
does return identifier 1 again, but the read on the reused identifier is
not 0 (it is 7, thread B's surviving private contribution). -/
theorem c4_reuse_read_ne_zero :
    c4_a2.2 = 1 ∧ ¬ (p64_counter_read c4_a2.1 1 = 0) := by
  exact ⟨by decide, by decide⟩

/-- C4 amended: the §8 scenario holds step by step — allocate yields 1,
read(1) = 12 after the two adds, still 12 after A unregisters, 0 after
reset(1), and allocateCounter returns 1 again after freeCounter(1) — but
the final read on the reused identifier returns 7 (thread B's
still-registered stash keeps its private contribution; only the shared
entry is zeroed by the allocation), not 0. -/
theorem c4_scenario_amended :
    c4_a1.2 = 1 ∧
    c4_r1.2.2 = RegResult.ok ∧
    c4_r2.2.2 = RegResult.ok ∧
    p64_counter_read c4_d5 1 = 12 ∧
    p64_counter_read c4_d6 1 = 12 ∧
    p64_counter_read c4_d7 1 = 0 ∧
    c4_a2.2 = 1 ∧
    p64_counter_read c4_a2.1 1 = 7 := by
  exact ⟨by decide, rfl, rfl, by decide, by decide, by decide, by decide, by decide⟩

/-- C9: in the sequential embedding the shared entry cannot change during a
traversal, so one traversal of `p64_counter_read`'s consistency loop
observes `sh0 = sh1` and the `do … while` exits after exactly one
iteration with the traversal's sum, for every fuel bound. -/
theorem c9_read_single_iteration (cntd : p64_cntdomain) (cntid : Nat) :
    (∀ fuel, readLoopAux cntd cntid (fuel + 1) =
      some ((readTraverse cntd cntid).2.1)) ∧
    (readTraverse cntd cntid).1 = (readTraverse cntd cntid).2.2 := by
  constructor
  · intro fuel
    simp [readLoopAux,
      show (readTraverse cntd cntid).1 = (readTraverse cntd cntid).2.2 from rfl]
  · rfl

/-- C10: creating a domain with capacity `2^32 - 1` succeeds (the flags
check passes and, allocation succeeding, a non-null handle is returned)
but the 32-bit `ncounters++` wraps the identifier count to 0, and on the
resulting domain every `p64_counter_alloc` call returns the invalid
sentinel and leaves the domain unchanged. -/
theorem c10_capacity_wrap_alloc_invalid :
    p64_cntdomain_alloc (2 ^ 32 - 1) 0 true = some d10 ∧
    d10.ncounters = 0 ∧
    ∀ n, allocSeq d10 n = (List.replicate n P64_COUNTER_INVALID, d10) := by
  exact ⟨rfl, rfl, allocSeq_free_zero d10 rfl⟩

lemma sumThreads_mod (pt : Nat → Option (Nat → Nat)) (c : Nat) :
    ∀ ts x, sumThreads pt c ts x % 2 ^ 64 =
      (x + sumThreads pt c ts 0) % 2 ^ 64 := by
  intro ts
  induction ts with
  | nil => intro x; simp [sumThreads]
  | cons t ts ih =>
    intro x
    cases h : pt t with
    | none => simp only [sumThreads, h]; exact ih x
    | some f =>
      simp only [sumThreads, h, Nat.zero_add]
      rw [ih ((x + f c) % 2 ^ 64), Nat.add_mod x (sumThreads pt c ts (f c % 2 ^ 64)),
        ih (f c % 2 ^ 64)]
      omega

lemma sumThreads_bound (pt : Nat → Option (Nat → Nat)) (c : Nat) :
    ∀ ts x, sumThreads pt c ts x = x ∨ sumThreads pt c ts x < 2 ^ 64 := by
  intro ts
  induction ts with
  | nil => intro x; left; rfl
  | cons t ts ih =>
    intro x
    cases h : pt t with
    | none => simp only [sumThreads, h]; exact ih x
    | some f =>
      simp only [sumThreads, h]
      right
      rcases ih ((x + f c) % 2 ^ 64) with h1 | h1
      · rw [h1]; exact Nat.mod_lt _ (by norm_num)
      · exact h1

lemma sumThreads_sub_zero (pt : Nat → Option (Nat → Nat)) (c : Nat)
    (ts : List Nat) (x : Nat) :
    sumThreads pt c ts (sub64 x (sumThreads pt c ts x)) = 0 := by
  set S0 := sumThreads pt c ts 0 with hS0
  set cur := sumThreads pt c ts x with hcur
  set s' := sub64 x cur with hs'
  set A := sumThreads pt c ts s' with hA
  have hcm : cur % 2 ^ 64 = (x + S0) % 2 ^ 64 := sumThreads_mod pt c ts x
  have hAm : A % 2 ^ 64 = (s' + S0) % 2 ^ 64 := sumThreads_mod pt c ts s'
  have hs'lt : s' < 2 ^ 64 := by
    rw [hs']
    exact Nat.mod_lt _ (by norm_num)
  have hAlt : A < 2 ^ 64 := by
    rcases sumThreads_bound pt c ts s' with h | h
    · rw [hA, h]
      exact hs'lt
    · exact h
  have hs'eq : s' = (x % 2 ^ 64 + (2 ^ 64 - cur % 2 ^ 64)) % 2 ^ 64 := rfl
  omega

/-- C7: for a valid identifier, `p64_counter_reset` followed immediately by
`p64_counter_read` returns 0 in 64-bit modular arithmetic, for arbitrary
shared-accumulator and stash contents and any set of registered
threads. -/
theorem c7_read_after_reset_zero (cntd : p64_cntdomain) (cntid : Nat)
    (h1 : cntid ≠ P64_COUNTER_INVALID) (h2 : cntid < cntd.ncounters) :
    p64_counter_read (p64_counter_reset cntd cntid) cntid = 0 := by
  have hv : ¬ (cntid = P64_COUNTER_INVALID ∨ cntid ≥ cntd.ncounters) := by
    push_neg
    exact ⟨h1, h2⟩
  simp only [p64_counter_reset, p64_counter_read, readTraverse, if_neg hv]
  simpa [upd] using
    sumThreads_sub_zero cntd.perthread cntid (List.range MAXTHREADS)
      (cntd.shared cntid)

/-- C7 witness: the theorem applied to a concrete domain (two counters,
shared[1] = 5, one registered stash holding 7 for counter 1). -/
theorem c7_read_after_reset_zero_witness :
    ((1 : Nat) ≠ P64_COUNTER_INVALID ∧ 1 < c7w.ncounters) ∧
    p64_counter_read (p64_counter_reset c7w 1) 1 = 0 :=
  ⟨⟨by decide, by decide⟩, c7_read_after_reset_zero c7w 1 (by decide) (by decide)⟩

lemma testBit_clearBit (n b j : Nat) :
    (clearBit n b).testBit j = (n.testBit j && !(decide (b = j))) := by
  unfold clearBit
  cases hb : n.testBit b with
  | false =>
    simp only [hb, Bool.false_eq_true, if_false]
    by_cases hbj : b = j
    · subst hbj; simp [hb]
    · simp [hbj]
  | true =>
    simp only [hb, if_true]
    rw [Nat.testBit_xor,
      show (1 <<< b) = 2 ^ b from by rw [Nat.shiftLeft_eq, one_mul],
      Nat.testBit_two_pow]
    by_cases hbj : b = j
    · subst hbj; simp [hb]
    · simp [hbj]

lemma testBit_setBit (n b j : Nat) :
    (setBit n b).testBit j = (n.testBit j || decide (b = j)) := by
  unfold setBit
  rw [Nat.testBit_or,
    show (1 <<< b) = 2 ^ b from by rw [Nat.shiftLeft_eq, one_mul],
    Nat.testBit_two_pow]

lemma ctzAux_isLowBit : ∀ fuel w, w ≠ 0 → w ≤ fuel → IsLowBit w (ctzAux fuel w) := by
  intro fuel
  induction fuel with
  | zero =>
    intro w h hle
    exact absurd (Nat.le_zero.mp hle) h
  | succ n ih =>
    intro w h hle
    unfold ctzAux
    by_cases h1 : w % 2 = 1 ∨ w = 0
    · rw [if_pos h1]
      have hw2 : w % 2 = 1 := by
        rcases h1 with h1 | h1
        · exact h1
        · exact absurd h1 h
      constructor
      · rw [Nat.testBit_zero]; simp [hw2]
      · intro j hj; omega
    · rw [if_neg h1]
      push_neg at h1
      obtain ⟨hodd, _⟩ := h1
      have h2 : w / 2 ≠ 0 := by omega
      have hle2 : w / 2 ≤ n := by omega
      obtain ⟨ht, hlow⟩ := ih (w / 2) h2 hle2
      constructor
      · rw [Nat.testBit_add_one]; exact ht
      · intro j hj
        cases j with
        | zero => rw [Nat.testBit_zero]; simp [hodd]
        | succ k =>
          rw [Nat.testBit_add_one]
          exact hlow k (by omega)

lemma ctz_isLowBit (w : Nat) (h : w ≠ 0) : IsLowBit w (ctz w) :=
  ctzAux_isLowBit w w h le_rfl

lemma isLowBit_unique {n a b : Nat} (ha : IsLowBit n a) (hb : IsLowBit n b) :
    a = b := by
  rcases Nat.lt_trichotomy a b with h | h | h
  · have hf := hb.2 a h
    rw [ha.1] at hf
    exact absurd hf (by simp)
  · exact h
  · have hf := ha.2 b h
    rw [hb.1] at hf
    exact absurd hf (by simp)

lemma ctz_lt_of_lt (w k : Nat) (h : w ≠ 0) (hw : w < 2 ^ k) : ctz w < k := by
  by_contra hk
  push_neg at hk
  have ht := (ctz_isLowBit w h).1
  rw [Nat.testBit_lt_two_pow
    (lt_of_lt_of_le hw (Nat.pow_le_pow_right (by norm_num) hk))] at ht
  exact absurd ht (by simp)

lemma testBit_pow_sub_pow {a b : Nat} (h : b ≤ a) (j : Nat) :
    (2 ^ a - 2 ^ b).testBit j = (decide (b ≤ j) && decide (j < a)) := by
  have he : 2 ^ a - 2 ^ b = (2 ^ (a - b) - 1) <<< b := by
    rw [Nat.shiftLeft_eq, Nat.sub_mul, one_mul, ← Nat.pow_add, Nat.sub_add_cancel h]
  rw [he, Nat.testBit_shiftLeft, Nat.testBit_two_pow_sub_one]
  rcases Nat.lt_or_ge j b with hbj | hbj
  · simp [show ¬ (j ≥ b) from by omega, show ¬ (b ≤ j) from by omega]
  · simp only [ge_iff_le, hbj, decide_True, Bool.true_and]
    exact decide_eq_decide.mpr (by omega)

lemma or_word_step (acc b nc : Nat) (h : b + 64 ≤ nc) :
    (acc ||| ((2 ^ 64 - 1) <<< b)) ||| (2 ^ nc - 2 ^ (b + 64)) =
      acc ||| (2 ^ nc - 2 ^ b) := by
  apply Nat.eq_of_testBit_eq
  intro j
  rw [Nat.testBit_or, Nat.testBit_or, Nat.testBit_or, Nat.testBit_shiftLeft,
    Nat.testBit_two_pow_sub_one, testBit_pow_sub_pow (by omega) j,
    testBit_pow_sub_pow (by omega) j]
  cases acc.testBit j with
  | true => simp
  | false =>
    simp only [Bool.false_or, ge_iff_le, ← Bool.decide_and, ← Bool.decide_or]
    exact decide_eq_decide.mpr (by omega)

lemma or_bit_step (acc b nc : Nat) (h1 : b < nc) :
    (acc ||| (1 <<< b)) ||| (2 ^ nc - 2 ^ (b + 1)) =
      acc ||| (2 ^ nc - 2 ^ b) := by
  apply Nat.eq_of_testBit_eq
  intro j
  rw [Nat.testBit_or, Nat.testBit_or, Nat.testBit_or,
    show (1 <<< b) = 2 ^ b from by rw [Nat.shiftLeft_eq, one_mul],
    Nat.testBit_two_pow, testBit_pow_sub_pow (by omega) j,
    testBit_pow_sub_pow (by omega) j]
  cases acc.testBit j with
  | true => simp
  | false =>
    simp only [Bool.false_or, ← Bool.decide_and, ← Bool.decide_or]
    exact decide_eq_decide.mpr (by omega)

lemma markFreeAux_eq (nc : Nat) :
    ∀ fuel b acc, nc - b ≤ fuel → (b % 64 = 0 ∨ nc < b + 64) → b ≤ nc →
      markFreeAux nc fuel b acc = acc ||| (2 ^ nc - 2 ^ b) := by
  intro fuel
  induction fuel with
  | zero =>
    intro b acc h1 h2 h3
    have hb : b = nc := by omega
    subst hb
    simp [markFreeAux, Nat.sub_self]
  | succ n ih =>
    intro b acc h1 h2 h3
    unfold markFreeAux
    by_cases hb : b < nc
    · rw [if_pos hb]
      by_cases hw : b + 64 ≤ nc
      · rw [if_pos hw]
        have hb64 : b % 64 = 0 := by
          rcases h2 with h | h
          · exact h
          · omega
        have hdiv : 64 * (b / 64) = b := by omega
        rw [hdiv, ih (b + 64) _ (by omega) (by left; omega) (by omega)]
        exact or_word_step acc b nc hw
      · rw [if_neg hw]
        rw [ih (b + 1) _ (by omega) (by right; omega) (by omega)]
        exact or_bit_step acc b nc hb
    · rw [if_neg hb]
      have hb' : b = nc := by omega
      subst hb'
      rw [Nat.sub_self]
      simp

lemma clearBit_pow_sub_one (n : Nat) : clearBit (2 ^ n - 1) 0 = 2 ^ n - 2 := by
  cases n with
  | zero => decide
  | succ m =>
    have h2 : 2 ^ (m + 1) - 2 = 2 ^ (m + 1) - 2 ^ 1 := by norm_num
    apply Nat.eq_of_testBit_eq
    intro j
    rw [testBit_clearBit, Nat.testBit_two_pow_sub_one, h2,
      testBit_pow_sub_pow (by omega) j]
    simp only [← decide_not, ← Bool.decide_and]
    exact decide_eq_decide.mpr (by omega)

lemma cntdomain_alloc_some_char (cap flags : Nat) (d : p64_cntdomain)
    (h : p64_cntdomain_alloc cap flags true = some d) :
    d.ncounters = (cap + 1) % 2 ^ 32 ∧
    d.free = 2 ^ ((cap + 1) % 2 ^ 32) - 2 ∧
    d.shared = (fun _ => 0) ∧
    d.perthread = (fun _ => none) := by
  unfold p64_cntdomain_alloc at h
  by_cases hf : flags &&& (2 ^ 32 - 1 - P64_COUNTER_F_HP) ≠ 0
  · rw [if_pos hf] at h
    exact absurd h (by simp)
  · rw [if_neg hf] at h
    simp only [if_true] at h
    injection h with h'
    subst h'
    refine ⟨rfl, ?_, rfl, rfl⟩
    show clearBit (markFreeAux ((cap + 1) % 2 ^ 32) ((cap + 1) % 2 ^ 32) 0 0) 0 =
      2 ^ ((cap + 1) % 2 ^ 32) - 2
    rw [markFreeAux_eq ((cap + 1) % 2 ^ 32) ((cap + 1) % 2 ^ 32) 0 0
      (by omega) (by left; rfl) (by omega)]
    rw [Nat.zero_or, Nat.pow_zero, clearBit_pow_sub_one]

lemma testBit_word (free i k : Nat) (hk : k < 64) :
    ((free >>> (64 * i)) % 2 ^ 64).testBit k = free.testBit (64 * i + k) := by
  rw [Nat.testBit_mod_two_pow, Nat.testBit_shiftRight]
  simp [hk]

lemma allocScanAux_finds (free : Nat) :
    ∀ fuel i, free ≠ 0 →
      (∀ b, b < 64 * i → free.testBit b = false) →
      (∀ b, 64 * (i + fuel) ≤ b → free.testBit b = false) →
      allocScanAux free fuel i = some (ctz free) := by
  intro fuel
  induction fuel with
  | zero =>
    intro i h hlo hhi
    exfalso
    apply h
    apply Nat.eq_of_testBit_eq
    intro j
    rw [Nat.zero_testBit]
    rcases Nat.lt_or_ge j (64 * i) with hj | hj
    · exact hlo j hj
    · exact hhi j (by omega)
  | succ n ih =>
    intro i h hlo hhi
    simp only [allocScanAux]
    by_cases hw : (free >>> (64 * i)) % 2 ^ 64 = 0
    · rw [if_neg (not_not_intro hw)]
      apply ih (i + 1) h
      · intro b hb
        rcases Nat.lt_or_ge b (64 * i) with hb2 | hb2
        · exact hlo b hb2
        · have hb3 : 64 * i + (b - 64 * i) = b := by omega
          rw [← hb3, ← testBit_word free i _ (by omega), hw, Nat.zero_testBit]
      · intro b hb
        exact hhi b (by omega)
    · rw [if_pos hw]
      congr 1
      have hwlt : (free >>> (64 * i)) % 2 ^ 64 < 2 ^ 64 := Nat.mod_lt _ (by norm_num)
      have hlb := ctz_isLowBit _ hw
      have hclt : ctz ((free >>> (64 * i)) % 2 ^ 64) < 64 := ctz_lt_of_lt _ 64 hw hwlt
      apply isLowBit_unique ?_ (ctz_isLowBit free h)
      constructor
      · have h1 := hlb.1
        rw [testBit_word free i _ hclt] at h1
        exact h1
      · intro j hj
        rcases Nat.lt_or_ge j (64 * i) with hj2 | hj2
        · exact hlo j hj2
        · have h2 := hlb.2 (j - 64 * i) (by omega)
          rw [testBit_word free i _ (by omega)] at h2
          rw [show 64 * i + (j - 64 * i) = j from by omega] at h2
          exact h2

lemma alloc_success_char (d : p64_cntdomain)
    (hhi : ∀ b, d.ncounters ≤ b → d.free.testBit b = false)
    (hne : d.free ≠ 0) :
    p64_counter_alloc d =
      ({ d with free := clearBit d.free (ctz d.free)
                shared := upd d.shared (ctz d.free) 0 }, ctz d.free) := by
  simp only [p64_counter_alloc]
  rw [allocScanAux_finds d.free ((d.ncounters + 64 - 1) / 64) 0 hne
    (fun b hb => absurd hb (by omega))
    (fun b hb => hhi b (by omega))]

lemma pow_sub_pow_ne_zero {nc k : Nat} (h : k < nc) : 2 ^ nc - 2 ^ k ≠ 0 := by
  have := Nat.pow_lt_pow_right (a := 2) (by norm_num) h
  omega

lemma ctz_pow_sub_pow {nc k : Nat} (h : k < nc) : ctz (2 ^ nc - 2 ^ k) = k := by
  apply isLowBit_unique (ctz_isLowBit _ (pow_sub_pow_ne_zero h))
  constructor
  · rw [testBit_pow_sub_pow (by omega)]
    simp [h]
  · intro j hj
    rw [testBit_pow_sub_pow (by omega)]
    simp [show ¬ (k ≤ j) from by omega]

lemma clearBit_pow_sub_pow {nc k : Nat} (h : k < nc) :
    clearBit (2 ^ nc - 2 ^ k) k = 2 ^ nc - 2 ^ (k + 1) := by
  apply Nat.eq_of_testBit_eq
  intro j
  rw [testBit_clearBit, testBit_pow_sub_pow (by omega) j,
    testBit_pow_sub_pow (by omega) j]
  simp only [← decide_not, ← Bool.decide_and]
  exact decide_eq_decide.mpr (by omega)

lemma pow_sub_pow_bits_high {nc k b : Nat} (hk : k ≤ nc) (hb : nc ≤ b) :
    (2 ^ nc - 2 ^ k).testBit b = false := by
  rw [testBit_pow_sub_pow hk]
  simp [show ¬ (b < nc) from by omega]

lemma alloc_at_state (nc k : Nat) (d : p64_cntdomain) (h1 : d.ncounters = nc)
    (h2 : d.free = 2 ^ nc - 2 ^ (k + 1)) (hk : k + 1 < nc) :
    p64_counter_alloc d =
      ({ d with free := 2 ^ nc - 2 ^ (k + 2)
                shared := upd d.shared (k + 1) 0 }, k + 1) := by
  have hctz : ctz d.free = k + 1 := by rw [h2]; exact ctz_pow_sub_pow hk
  have hne : d.free ≠ 0 := by rw [h2]; exact pow_sub_pow_ne_zero hk
  have hhi : ∀ b, d.ncounters ≤ b → d.free.testBit b = false := by
    intro b hb
    rw [h2]
    exact pow_sub_pow_bits_high (by omega) (by omega)
  rw [alloc_success_char d hhi hne, hctz, h2, clearBit_pow_sub_pow hk]

lemma allocSeq_spec (nc : Nat) :
    ∀ j k (d : p64_cntdomain), d.ncounters = nc → d.free = 2 ^ nc - 2 ^ (k + 1) →
      k + 1 + j = nc →
      (allocSeq d (j + 1)).1 = List.range' (k + 1) j ++ [P64_COUNTER_INVALID] := by
  intro j
  induction j with
  | zero =>
    intro k d h1 h2 h3
    have hz : d.free = 0 := by
      rw [h2, show k + 1 = nc from by omega, Nat.sub_self]
    simp [allocSeq, alloc_of_free_zero d hz, List.range']
  | succ j ih =>
    intro k d h1 h2 h3
    have step := alloc_at_state nc k d h1 h2 (by omega)
    show ((p64_counter_alloc d).2 :: (allocSeq (p64_counter_alloc d).1 (j + 1)).1,
      (allocSeq (p64_counter_alloc d).1 (j + 1)).2).1 = _
    rw [step]
    simp only []
    rw [ih (k + 1)
      { d with free := 2 ^ nc - 2 ^ (k + 2), shared := upd d.shared (k + 1) 0 }
      h1 rfl (by omega)]
    rw [List.range'_succ]
    rfl

/-- C5 counterexample: with capacity `N = 2^32 - 1` the internal 32-bit
identifier count wraps to 0, so the very first of the `N+1` allocation
calls on the freshly created domain already returns the invalid sentinel
instead of a valid identifier in `[1, N]`. -/
theorem c5_capacity_wrap_cex :
    p64_cntdomain_alloc (2 ^ 32 - 1) 0 true = some d10 ∧
    ¬ (∀ i ∈ (allocSeq d10 ((2 ^ 32 - 1) + 1)).1.take (2 ^ 32 - 1),
        1 ≤ i ∧ i ≤ 2 ^ 32 - 1) := by
  refine ⟨rfl, ?_⟩
  intro hall
  rw [allocSeq_free_zero d10 rfl ((2 ^ 32 - 1) + 1)] at hall
  have h0 : (0 : Nat) ∈
      (List.replicate ((2 ^ 32 - 1) + 1) P64_COUNTER_INVALID).take (2 ^ 32 - 1) := by
    rw [List.replicate_succ,
      show (2 : Nat) ^ 32 - 1 = (2 ^ 32 - 2) + 1 from by norm_num,
      List.take_succ_cons]
    exact List.mem_cons_self _ _
  have := hall 0 h0
  omega

/-- C5 amended: provided the capacity does not overflow the internal
32-bit identifier count (`N + 1 < 2^32`), `N + 1` allocation calls on a
fresh domain of capacity `N` return exactly `1, 2, …, N` — hence `N`
pairwise-distinct valid identifiers in `[1, N]` — followed by the
invalid sentinel, and every successful allocation zeroes the claimed
identifier's shared-accumulator entry. -/
theorem c5_alloc_sequence (N : Nat) (d0 : p64_cntdomain)
    (hN : N + 1 < 2 ^ 32) (hd : p64_cntdomain_alloc N 0 true = some d0) :
    (allocSeq d0 (N + 1)).1 = List.range' 1 N ++ [P64_COUNTER_INVALID] ∧
    ((allocSeq d0 (N + 1)).1.take N).Nodup ∧
    (∀ i ∈ (allocSeq d0 (N + 1)).1.take N, 1 ≤ i ∧ i ≤ N) ∧
    (∀ e : p64_cntdomain, (p64_counter_alloc e).2 ≠ P64_COUNTER_INVALID →
      (p64_counter_alloc e).1.shared ((p64_counter_alloc e).2) = 0) := by
  obtain ⟨hnc, hfree, -, -⟩ := cntdomain_alloc_some_char N 0 d0 hd
  have hmod : (N + 1) % 2 ^ 32 = N + 1 := Nat.mod_eq_of_lt hN
  rw [hmod] at hnc hfree
  have main := allocSeq_spec (N + 1) N 0 d0 hnc (by rw [hfree]; norm_num) (by omega)
  refine ⟨main, ?_, ?_, ?_⟩
  · rw [main, List.take_left' (List.length_range' 1 1 N)]
    exact List.nodup_range' 1 N
  · intro i hi
    rw [main, List.take_left' (List.length_range' 1 1 N)] at hi
    obtain ⟨m, hm, rfl⟩ := List.mem_range'.mp hi
    omega
  · intro e he
    simp only [p64_counter_alloc] at he ⊢
    cases h : allocScanAux e.free ((e.ncounters + 64 - 1) / 64) 0 with
    | none =>
      rw [h] at he
      exact absurd rfl he
    | some c => simp [upd]

/-- C5 witness: the amended theorem applied to a fresh domain of
capacity 2: three allocation calls return 1, 2 and then the invalid
sentinel. -/
theorem c5_alloc_sequence_witness :
    ((2 : Nat) + 1 < 2 ^ 32 ∧ p64_cntdomain_alloc 2 0 true = some c5w) ∧
    (allocSeq c5w 3).1 = List.range' 1 2 ++ [P64_COUNTER_INVALID] :=
  ⟨⟨by norm_num, rfl⟩, (c5_alloc_sequence 2 c5w (by norm_num) rfl).1⟩

lemma alloc_free_subset (d : p64_cntdomain) (j : Nat) :
    (p64_counter_alloc d).1.free.testBit j = true → d.free.testBit j = true := by
  simp only [p64_counter_alloc]
  cases h : allocScanAux d.free ((d.ncounters + 64 - 1) / 64) 0 with
  | none => exact id
  | some c =>
    intro hj
    rw [testBit_clearBit, Bool.and_eq_true] at hj
    exact hj.1

lemma alloc_ncounters (d : p64_cntdomain) :
    (p64_counter_alloc d).1.ncounters = d.ncounters := by
  simp only [p64_counter_alloc]
  cases h : allocScanAux d.free ((d.ncounters + 64 - 1) / 64) 0 with
  | none => rfl
  | some c => rfl

lemma free_ncounters (d : p64_cntdomain) (cntid : Nat) :
    (p64_counter_free d cntid).1.ncounters = d.ncounters := by
  unfold p64_counter_free
  by_cases h1 : cntid = P64_COUNTER_INVALID ∨ cntid ≥ d.ncounters
  · rw [if_pos h1]
  · rw [if_neg h1]
    by_cases h2 : ((d.free >>> (64 * (cntid / 64))) % 2 ^ 64) &&& (1 <<< (cntid % 64)) ≠ 0
    · rw [if_pos h2]
    · rw [if_neg h2]

lemma free_free_char (d : p64_cntdomain) (cntid j : Nat)
    (h : (p64_counter_free d cntid).1.free.testBit j = true) :
    d.free.testBit j = true ∨
      (j = cntid ∧ cntid ≠ P64_COUNTER_INVALID ∧ cntid < d.ncounters) := by
  unfold p64_counter_free at h
  by_cases h1 : cntid = P64_COUNTER_INVALID ∨ cntid ≥ d.ncounters
  · rw [if_pos h1] at h
    exact Or.inl h
  · rw [if_neg h1] at h
    by_cases h2 : ((d.free >>> (64 * (cntid / 64))) % 2 ^ 64) &&& (1 <<< (cntid % 64)) ≠ 0
    · rw [if_pos h2] at h
      exact Or.inl h
    · rw [if_neg h2] at h
      rw [show 64 * (cntid / 64) + cntid % 64 = cntid from Nat.div_add_mod cntid 64] at h
      rw [show d.free ||| (1 <<< cntid) = setBit d.free cntid from rfl,
        testBit_setBit] at h
      rw [Bool.or_eq_true] at h
      rcases h with h3 | h3
      · exact Or.inl h3
      · push_neg at h1
        exact Or.inr ⟨(of_decide_eq_true h3).symm, h1.1, by omega⟩

lemma reachable_inv (d : p64_cntdomain) (hd : Reachable d) : InvBitmap d := by
  induction hd with
  | init cap flags e he =>
    obtain ⟨hnc, hfree, -, -⟩ := cntdomain_alloc_some_char cap flags e he
    constructor
    · rw [hfree, Nat.testBit_zero]
      have hpar : (2 ^ ((cap + 1) % 2 ^ 32) - 2) % 2 = 0 := by
        rcases Nat.eq_zero_or_pos ((cap + 1) % 2 ^ 32) with h | h
        · rw [h]; rfl
        · have h2 : 2 ^ ((cap + 1) % 2 ^ 32) = 2 * 2 ^ ((cap + 1) % 2 ^ 32 - 1) := by
            rw [← Nat.pow_succ']
            congr 1
            omega
          omega
      simp only [hpar]
      rfl
    · intro b hb
      rw [hnc] at hb
      rw [hfree]
      apply Nat.testBit_lt_two_pow
      calc 2 ^ ((cap + 1) % 2 ^ 32) - 2 < 2 ^ ((cap + 1) % 2 ^ 32) :=
            Nat.sub_lt (pow_pos (by norm_num) _) (by norm_num)
        _ ≤ 2 ^ b := Nat.pow_le_pow_right (by norm_num) hb
  | alloc e he ih =>
    constructor
    · cases h : (p64_counter_alloc e).1.free.testBit 0 with
      | false => rfl
      | true =>
        have hs := alloc_free_subset e 0 h
        rw [ih.1] at hs
        exact absurd hs (by simp)
    · intro b hb
      rw [alloc_ncounters] at hb
      cases h : (p64_counter_alloc e).1.free.testBit b with
      | false => rfl
      | true =>
        have hs := alloc_free_subset e b h
        rw [ih.2 b hb] at hs
        exact absurd hs (by simp)
  | free e cntid he ih =>
    constructor
    · cases h : (p64_counter_free e cntid).1.free.testBit 0 with
      | false => rfl
      | true =>
        rcases free_free_char e cntid 0 h with h2 | ⟨h2, h3, -⟩
        · rw [ih.1] at h2
          exact absurd h2 (by simp)
        · exact absurd h2.symm h3
    · intro b hb
      rw [free_ncounters] at hb
      cases h : (p64_counter_free e cntid).1.free.testBit b with
      | false => rfl
      | true =>
        rcases free_free_char e cntid b h with h2 | ⟨h2, -, h4⟩
        · rw [ih.2 b hb] at h2
          exact absurd h2 (by simp)
        · exact absurd h4 (by omega)

lemma reachable_runOps : ∀ ops (d : p64_cntdomain), Reachable d →
    Reachable (runOps d ops) := by
  intro ops
  induction ops with
  | nil => intro d hd; exact hd
  | cons op ops ih =>
    intro d hd
    cases op with
    | alloc => exact ih _ (Reachable.alloc d hd)
    | free c => exact ih _ (Reachable.free d c hd)

lemma bit_clear_runOps (c : Nat) :
    ∀ ops (d : p64_cntdomain), d.free.testBit c = false → CntOp.free c ∉ ops →
      (runOps d ops).free.testBit c = false := by
  intro ops
  induction ops with
  | nil => intro d h _; exact h
  | cons op ops ih =>
    intro d h hnin
    have hnin1 : CntOp.free c ∉ ops := fun hm => hnin (List.mem_cons_of_mem _ hm)
    cases op with
    | alloc =>
      apply ih _ ?_ hnin1
      cases h2 : (p64_counter_alloc d).1.free.testBit c with
      | false => exact h2
      | true =>
        have hs := alloc_free_subset d c h2
        rw [h] at hs
        exact absurd hs (by simp)
    | free c' =>
      apply ih _ ?_ hnin1
      have hne : c' ≠ c := by
        intro he
        subst he
        exact hnin (List.mem_cons_self _ _)
      cases h2 : (p64_counter_free d c').1.free.testBit c with
      | false => exact h2
      | true =>
        rcases free_free_char d c' c h2 with h3 | ⟨h3, -, -⟩
        · rw [h] at h3
          exact absurd h3 (by simp)
        · exact absurd h3.symm hne

/-- C6: in every domain state reachable by `p64_counter_alloc` /
`p64_counter_free` calls from creation, bit 0 of the free bitmap is clear
and no bit at or beyond `ncounters` is set; consequently an allocation
returns either the invalid sentinel or a nonzero in-range identifier, and
an identifier just allocated cannot be returned by a later allocation
unless a `p64_counter_free` of that identifier happens in between. -/
theorem c6_bitmap_invariant (d : p64_cntdomain) (hd : Reachable d) :
    (d.free.testBit 0 = false ∧ ∀ b, d.ncounters ≤ b → d.free.testBit b = false) ∧
    ((p64_counter_alloc d).2 = P64_COUNTER_INVALID ∨
      (0 < (p64_counter_alloc d).2 ∧ (p64_counter_alloc d).2 < d.ncounters)) ∧
    (∀ mid, (p64_counter_alloc d).2 ≠ P64_COUNTER_INVALID →
      CntOp.free ((p64_counter_alloc d).2) ∉ mid →
      (p64_counter_alloc (runOps (p64_counter_alloc d).1 mid)).2 ≠
        (p64_counter_alloc d).2) := by
  have inv := reachable_inv d hd
  refine ⟨inv, ?_, ?_⟩
  · by_cases hz : d.free = 0
    · left
      rw [alloc_of_free_zero d hz]
    · right
      rw [alloc_success_char d inv.2 hz]
      constructor
      · rcases Nat.eq_zero_or_pos (ctz d.free) with h | h
        · have ht := (ctz_isLowBit d.free hz).1
          rw [h, inv.1] at ht
          exact absurd ht (by simp)
        · exact h
      · by_contra hge
        push_neg at hge
        have ht := (ctz_isLowBit d.free hz).1
        rw [inv.2 _ hge] at ht
        exact absurd ht (by simp)
  · intro mid hne hnin
    by_cases hz : d.free = 0
    · rw [alloc_of_free_zero d hz] at hne
      exact absurd rfl hne
    · have hchar := alloc_success_char d inv.2 hz
      have h2 : (p64_counter_alloc d).2 = ctz d.free := by rw [hchar]
      have hfreeeq : (p64_counter_alloc d).1.free = clearBit d.free (ctz d.free) := by
        rw [hchar]
      rw [h2] at hne hnin ⊢
      have hbit : (p64_counter_alloc d).1.free.testBit (ctz d.free) = false := by
        rw [hfreeeq, testBit_clearBit]
        simp
      have hreach1 : Reachable (p64_counter_alloc d).1 := Reachable.alloc d hd
      have hbit2 := bit_clear_runOps (ctz d.free) mid _ hbit hnin
      have hreach2 := reachable_runOps mid _ hreach1
      have inv2 := reachable_inv _ hreach2
      intro heq
      by_cases hz2 : (runOps (p64_counter_alloc d).1 mid).free = 0
      · have h4 : (p64_counter_alloc (runOps (p64_counter_alloc d).1 mid)).2 =
            P64_COUNTER_INVALID := by
          rw [alloc_of_free_zero _ hz2]
        rw [h4] at heq
        exact hne heq.symm
      · have h4 : (p64_counter_alloc (runOps (p64_counter_alloc d).1 mid)).2 =
            ctz (runOps (p64_counter_alloc d).1 mid).free := by
          rw [alloc_success_char _ inv2.2 hz2]
        rw [h4] at heq
        have ht := (ctz_isLowBit _ hz2).1
        rw [heq, hbit2] at ht
        exact absurd ht (by simp)

/-- C6 witness: the theorem applied to the domain freshly created with
capacity 1 (reachable by the init rule). -/
theorem c6_bitmap_invariant_witness :
    c6w.free.testBit 0 = false ∧
    ((p64_counter_alloc c6w).2 = P64_COUNTER_INVALID ∨
      (0 < (p64_counter_alloc c6w).2 ∧ (p64_counter_alloc c6w).2 < c6w.ncounters)) := by
  have h := c6_bitmap_invariant c6w (Reachable.init 1 0 c6w rfl)
  exact ⟨h.1.1, h.2.1⟩
